import Mathlib

set_option maxRecDepth 4000

/-!
Verification development for a backtesting engine
(`backend/app/backtester.py` and `backend/app/strategies.py`).

The Python code is shallowly embedded: money and prices are exact
rationals (`ℚ`), Python dicts become insertion-ordered association
lists, and a missing price (IEEE NaN in the pandas data) is modelled as
`Option.none`; arithmetic touched by a NaN is modelled by propagating
`none` through `Option ℚ`, mirroring NaN poisoning of float sums.
-/

/-- Calendar date, reduced to the fields the code reads: `date.year`,
`date.month`, and subtraction of dates in days (modelled by an absolute
day ordinal `ord`, so `(d2 - d1).days = d2.ord - d1.ord`). -/
structure Date where
  year : ℤ
  month : ℕ
  ord : ℤ
deriving DecidableEq

/-- A pandas row `prices.to_dict()`: ticker to closing price, `none` = NaN. -/
abbrev Prices := List (String × Option ℚ)

/-- Python dict lookup `d.get(k)` / `d[k]` on an insertion-ordered
association list (first occurrence wins; lists built by `dictInsert`
from `[]` have unique keys). -/
def dictLookup (l : List (String × α)) (k : String) : Option α :=
  match l with
  | [] => none
  | (a, v) :: rest => if a = k then some v else dictLookup rest k

/-- Python dict assignment `d[k] = v`: update in place if the key exists
(keeping its position), otherwise append at the end. -/
def dictInsert (l : List (String × α)) (k : String) (v : α) : List (String × α) :=
  match l with
  | [] => [(k, v)]
  | (a, w) :: rest => if a = k then (k, v) :: rest else (a, w) :: dictInsert rest k v

/-- Python `del d[k]`: remove the (first) entry with key `k`. -/
def dictErase (l : List (String × α)) (k : String) : List (String × α) :=
  match l with
  | [] => []
  | (a, w) :: rest => if a = k then rest else (a, w) :: dictErase rest k

/-- Python `list(d.keys())`. -/
def dictKeys (l : List (String × α)) : List String :=
  l.map Prod.fst

/-- Transaction fee model: `transaction_fee_type` is `'percentage'` or `'fixed'`. -/
inductive FeeType where
  | percentage
  | fixed
deriving DecidableEq

/-- Position sizing: `sizing_method` is `'equal'` or `'var'`. -/
inductive SizingMethod where
  | equal
  | var
deriving DecidableEq

/-- Rebalance period unit; unknown units fall back to months in the source,
so the three-constructor enum is behaviourally complete. -/
inductive PeriodUnit where
  | days
  | weeks
  | months
deriving DecidableEq

/-- Sale record returned by `Portfolio.sell_ticker`. -/
structure SoldRecord where
  revenue : ℚ
  profit : ℚ
  return_pct : ℚ
  fee : ℚ
deriving DecidableEq

/-- Purchase record returned by `Portfolio.buy_ticker`. -/
structure BuyRecord where
  ticker : String
  quantity : ℤ
  price : ℚ
  score : ℚ
  fee : ℚ
  var : Option ℚ
deriving DecidableEq

/-- One entry of `loss_deductions_applied` in `settle_annual_tax`. -/
structure Deduction where
  year : ℤ
  original_loss : ℚ
  deduction : ℚ
deriving DecidableEq

/-- An entry of `rebalance_history` (the structured event log). -/
inductive Event where
  | rebalanceE (date : Date) (sold : List (String × SoldRecord))
      (bought : List BuyRecord) (cash : ℚ)
  | stopLossE (date : Date) (smart : Bool) (sold : List (String × SoldRecord))
      (bought : List BuyRecord) (cash : ℚ)
  | taxSettlementE (date : Date) (annual_pnl taxable_profit : ℚ)
      (loss_deductions : List Deduction) (remaining_losses : List (ℤ × ℚ))
      (tax cash : ℚ)
deriving DecidableEq

/-- An entry of `history` (daily valuation snapshots); a `none`
`total_value` models a NaN total caused by a held ticker with NaN price. -/
structure HistEntry where
  date : Date
  total_value : Option ℚ
  cash : ℚ
deriving DecidableEq

/-- The `Portfolio` class state (`backtester.py`, `__init__`). -/
structure Portfolio where
  initial_capital : ℚ
  cash : ℚ
  holdings : List (String × ℤ)
  cost_basis : List (String × ℚ)
  entry_prices : List (String × ℚ)
  history : List HistEntry
  rebalance_history : List Event
  transaction_fee_enabled : Bool
  transaction_fee_type : FeeType
  transaction_fee_value : ℚ
  capital_gains_tax_enabled : Bool
  capital_gains_tax_pct : ℚ
  annual_realized_pnl : ℚ
  loss_carryforward : List (ℤ × ℚ)
  margin_interest_rate_annual : ℚ
  margin_enabled : Bool
  sizing_method : SizingMethod
deriving DecidableEq

/-- `Portfolio.__init__`. -/
def mkPortfolio (initial_capital : ℚ) (transaction_fee_enabled : Bool)
    (transaction_fee_type : FeeType) (transaction_fee_value : ℚ)
    (capital_gains_tax_enabled : Bool) (capital_gains_tax_pct : ℚ)
    (margin_enabled : Bool) (sizing_method : SizingMethod) : Portfolio where
  initial_capital := initial_capital
  cash := initial_capital
  holdings := []
  cost_basis := []
  entry_prices := []
  history := []
  rebalance_history := []
  transaction_fee_enabled := transaction_fee_enabled
  transaction_fee_type := transaction_fee_type
  transaction_fee_value := transaction_fee_value
  capital_gains_tax_enabled := capital_gains_tax_enabled
  capital_gains_tax_pct := capital_gains_tax_pct
  annual_realized_pnl := 0
  loss_carryforward := []
  margin_interest_rate_annual := 3 / 100
  margin_enabled := margin_enabled
  sizing_method := sizing_method

/-- Fee computation shared by `sell_ticker` (base = revenue) and
`buy_ticker` (base = actual_cost). -/
def calcFee (p : Portfolio) (base : ℚ) : ℚ :=
  if p.transaction_fee_enabled then
    match p.transaction_fee_type with
    | FeeType.percentage => base * (p.transaction_fee_value / 100)
    | FeeType.fixed => p.transaction_fee_value
  else 0

/-- `Portfolio.get_total_value` helper: the generator
`sum(self.holdings.get(t, 0) * p for t, p in current_prices.items() if t in self.holdings)`.
A held ticker with NaN price makes the whole float sum NaN, modelled as `none`. -/
def holdingsValue (holdings : List (String × ℤ)) : Prices → Option ℚ
  | [] => some 0
  | (t, priceOpt) :: rest =>
    match dictLookup holdings t with
    | none => holdingsValue holdings rest
    | some q =>
      match priceOpt, holdingsValue holdings rest with
      | some price, some s => some ((q : ℚ) * price + s)
      | _, _ => none

/-- `Portfolio.get_total_value`. -/
def get_total_value (p : Portfolio) (current_prices : Prices) : Option ℚ :=
  (holdingsValue p.holdings current_prices).map (fun v => p.cash + v)

/-- `Portfolio.sell_ticker` (the `date` and `reason` parameters are unused
by the source body and omitted). Returns the updated state and the sale
record, `none` when the ticker is not held. -/
def sell_ticker (p : Portfolio) (ticker : String) (price : ℚ) :
    Portfolio × Option SoldRecord :=
  match dictLookup p.holdings ticker with
  | none => (p, none)
  | some quantity =>
    let revenue := (quantity : ℚ) * price
    let fee := calcFee p revenue
    let cost := (dictLookup p.cost_basis ticker).getD 0
    let pnl := revenue - cost - fee
    let pnl_percent := if 0 < cost then pnl / cost else 0
    ({ p with
        annual_realized_pnl :=
          if p.capital_gains_tax_enabled then p.annual_realized_pnl + pnl
          else p.annual_realized_pnl,
        cash := p.cash + (revenue - fee),
        holdings := dictErase p.holdings ticker,
        cost_basis := dictErase p.cost_basis ticker,
        entry_prices :=
          if (dictLookup p.entry_prices ticker).isSome then
            dictErase p.entry_prices ticker
          else p.entry_prices },
     some ⟨revenue, pnl, pnl_percent, fee⟩)

/-- The whole-share quantity computed by `buy_ticker`
(`int(amount // price)`, plus one extra share when margin is enabled). -/
def buyQuantity (margin_enabled : Bool) (amount price : ℚ) : ℤ :=
  if margin_enabled then ⌊amount / price⌋ + 1 else ⌊amount / price⌋

/-- `Portfolio.buy_ticker` (the `date` parameter is unused by the source
body and omitted). -/
def buy_ticker (p : Portfolio) (ticker : String) (amount price score : ℚ)
    (var : Option ℚ) : Portfolio × Option BuyRecord :=
  if price ≤ 0 then (p, none)
  else
    let quantity := buyQuantity p.margin_enabled amount price
    if quantity ≤ 0 then (p, none)
    else
      let actual_cost := (quantity : ℚ) * price
      let fee := calcFee p actual_cost
      ({ p with
          holdings := dictInsert p.holdings ticker quantity,
          cost_basis := dictInsert p.cost_basis ticker actual_cost,
          entry_prices := dictInsert p.entry_prices ticker price,
          cash := p.cash - (actual_cost + fee) },
       some ⟨ticker, quantity, price, score, fee, var⟩)

/-- The carryforward walk of `settle_annual_tax` (the `for loss_year,
loss_amount in self.loss_carryforward` loop of the profit branch).
Returns (remaining_profit, updated_losses, loss_deductions_applied). -/
def applyLossDeductions (remaining_profit : ℚ) :
    List (ℤ × ℚ) → ℚ × List (ℤ × ℚ) × List Deduction
  | [] => (remaining_profit, [], [])
  | (loss_year, loss_amount) :: rest =>
    if remaining_profit ≤ 0 then
      let r := applyLossDeductions remaining_profit rest
      (r.1, (loss_year, loss_amount) :: r.2.1, r.2.2)
    else
      let max_deduction := loss_amount * (1 / 2)
      let actual_deduction := min max_deduction remaining_profit
      let remaining_loss := loss_amount - actual_deduction
      let r := applyLossDeductions (remaining_profit - actual_deduction) rest
      (r.1,
       if 1 / 100 < remaining_loss then (loss_year, remaining_loss) :: r.2.1 else r.2.1,
       ⟨loss_year, loss_amount, actual_deduction⟩ :: r.2.2)

/-- Common tail of `settle_annual_tax`: tax computation, event recording,
and the reset of `annual_realized_pnl`. -/
def settleFinish (p : Portfolio) (date : Date) (new_lcf : List (ℤ × ℚ))
    (taxable_profit : ℚ) (loss_deductions_applied : List Deduction) : Portfolio :=
  let tax := if 0 < taxable_profit then taxable_profit * (p.capital_gains_tax_pct / 100) else 0
  let p1 := { p with
    loss_carryforward := new_lcf,
    cash := p.cash - tax }
  let p2 :=
    if 0 < tax ∨ p.annual_realized_pnl ≠ 0 ∨ loss_deductions_applied ≠ [] then
      { p1 with rebalance_history := p1.rebalance_history ++
          [Event.taxSettlementE date p.annual_realized_pnl taxable_profit
            loss_deductions_applied new_lcf tax p1.cash] }
    else p1
  { p2 with annual_realized_pnl := 0 }

/-- `Portfolio.settle_annual_tax`. -/
def settle_annual_tax (p : Portfolio) (date : Date) : Portfolio :=
  if p.capital_gains_tax_enabled then
    let current_year := date.year
    let lcf := p.loss_carryforward.filter (fun yl => decide (current_year - yl.1 < 5))
    if p.annual_realized_pnl < 0 then
      settleFinish p date (lcf ++ [(current_year, |p.annual_realized_pnl|)])
        p.annual_realized_pnl []
    else if 0 < p.annual_realized_pnl ∧ lcf ≠ [] then
      let r := applyLossDeductions p.annual_realized_pnl lcf
      settleFinish p date r.2.1 r.1 r.2.2
    else
      settleFinish p date lcf p.annual_realized_pnl []
  else p

/-- `Portfolio.get_stop_loss_candidates`. -/
def get_stop_loss_candidates (p : Portfolio) (trigger_prices : Prices)
    (stop_loss_pct : Option ℚ) : List String :=
  match stop_loss_pct with
  | none => []
  | some slp =>
    (p.holdings.filter (fun tq =>
      match dictLookup trigger_prices tq.1 with
      | some (some trigger_price) =>
        let entry_price := (dictLookup p.entry_prices tq.1).getD 0
        decide (0 < entry_price ∧ trigger_price < entry_price * (1 - slp))
      | _ => false)).map Prod.fst

/-- `Portfolio.record_history`. -/
def record_history (p : Portfolio) (date : Date) (current_prices : Prices) : Portfolio :=
  { p with history := p.history ++ [⟨date, get_total_value p current_prices, p.cash⟩] }

/-- `Portfolio.apply_daily_interest` (365.25 = 1461/4). -/
def apply_daily_interest (p : Portfolio) : Portfolio :=
  if p.margin_enabled ∧ p.cash < 0 then
    let daily_rate := p.margin_interest_rate_annual / (1461 / 4)
    { p with cash := p.cash - |p.cash| * daily_rate }
  else p

/-- Inverse-VaR weight used by `Portfolio.rebalance` when sizing is `'var'`:
`1/abs(var)` when the ticker has a VaR with `abs(var) > 0.0001`, else the
fallback `1.0 / 0.05 = 20`. -/
def invVar (var_map : List (String × ℚ)) (t : String) : ℚ :=
  match dictLookup var_map t with
  | some v => if 1 / 10000 < |v| then 1 / |v| else 20
  | none => 20

/-- Sell phase of `Portfolio.rebalance`: iterate over a snapshot of the
holdings keys, selling every ticker not in the target set that has a
valid (non-NaN) price today. Returns the state and `sold_performance`. -/
def sellLoop (target_tickers : List String) (current_prices : Prices) :
    Portfolio → List String → Portfolio × List (String × SoldRecord)
  | p, [] => (p, [])
  | p, ticker :: rest =>
    if ticker ∈ target_tickers then sellLoop target_tickers current_prices p rest
    else
      match dictLookup current_prices ticker with
      | some (some price) =>
        let sres := sell_ticker p ticker price
        match sres.2 with
        | some record =>
          let r := sellLoop target_tickers current_prices sres.1 rest
          (r.1, (ticker, record) :: r.2)
        | none => sellLoop target_tickers current_prices sres.1 rest
      | _ => sellLoop target_tickers current_prices p rest

/-- Buy phase of `Portfolio.rebalance`: buy each ticker of
`tickers_to_buy` that has a valid price today, with its precomputed
allocation; `var` is `var_map.get(ticker)` when var_map is truthy. -/
def buyLoop (current_prices : Prices) (allocations scores_map : List (String × ℚ))
    (var_map : List (String × ℚ)) :
    Portfolio → List String → Portfolio × List BuyRecord
  | p, [] => (p, [])
  | p, ticker :: rest =>
    match dictLookup current_prices ticker with
    | some (some price) =>
      let allocation := (dictLookup allocations ticker).getD 0
      let bres := buy_ticker p ticker allocation price
        ((dictLookup scores_map ticker).getD 0)
        (if var_map = [] then none else dictLookup var_map ticker)
      match bres.2 with
      | some record =>
        let r := buyLoop current_prices allocations scores_map var_map bres.1 rest
        (r.1, record :: r.2)
      | none => buyLoop current_prices allocations scores_map var_map bres.1 rest
    | _ => buyLoop current_prices allocations scores_map var_map p rest

/-- `Portfolio.rebalance`. The Python `var_map` argument is a dict that can
be `None` or empty, both falsy; the model collapses `None` to `[]`.
Duplicate tickers in the target list are kept (as in the source, where the
allocation dict deduplicates keys but `total_inverse_var` sums with
multiplicity), so allocations are built positionally with one entry per
`tickers_to_buy` element. -/
def rebalance (p : Portfolio) (target_tickers_with_scores : List (String × ℚ))
    (current_prices : Prices) (date : Date) (var_map : List (String × ℚ)) : Portfolio :=
  let target_tickers := target_tickers_with_scores.map Prod.fst
  let scores_map := target_tickers_with_scores.foldl
    (fun acc ts => dictInsert acc ts.1 ts.2) []
  let sres := sellLoop target_tickers current_prices p (dictKeys p.holdings)
  let p1 := sres.1
  let sold_performance := sres.2
  let tickers_to_buy := target_tickers.filter (fun t => (dictLookup p1.holdings t).isNone)
  let bres :=
    if tickers_to_buy = [] then (p1, [])
    else
      let allocations :=
        if p.sizing_method = SizingMethod.var ∧ var_map ≠ [] then
          let total_inverse_var := (tickers_to_buy.map (invVar var_map)).sum
          if 0 < total_inverse_var then
            tickers_to_buy.map (fun t => (t, p1.cash * (invVar var_map t / total_inverse_var)))
          else
            tickers_to_buy.map (fun t => (t, p1.cash / tickers_to_buy.length))
        else
          tickers_to_buy.map (fun t => (t, p1.cash / tickers_to_buy.length))
      buyLoop current_prices allocations scores_map var_map p1 tickers_to_buy
  { bres.1 with rebalance_history := bres.1.rebalance_history ++
      [Event.rebalanceE date sold_performance bres.2 bres.1.cash] }

/-- `Strategy.should_rebalance`, identical across the Random, Momentum and
Scoring variants (`strategies.py`): true when no rebalance happened yet,
else once the elapsed days reach the period translated to days. -/
def should_rebalance (rebalance_period : ℕ) (unit : PeriodUnit)
    (current_date : Date) (last_rebalance_date : Option Date) : Bool :=
  match last_rebalance_date with
  | none => true
  | some last =>
    let days_diff := current_date.ord - last.ord
    match unit with
    | PeriodUnit.days => decide (days_diff ≥ (rebalance_period : ℤ))
    | PeriodUnit.weeks => decide (days_diff ≥ (rebalance_period : ℤ) * 7)
    | PeriodUnit.months => decide (days_diff ≥ (rebalance_period : ℤ) * 30)

/-- Run configuration of `run_backtest` (strategy rebalance period
included, since `should_rebalance` is uniform across strategies). -/
structure RunConfig where
  stop_loss_pct : Option ℚ
  smart_stop_loss : Bool
  transaction_fee_enabled : Bool
  transaction_fee_type : FeeType
  transaction_fee_value : ℚ
  capital_gains_tax_enabled : Bool
  capital_gains_tax_pct : ℚ
  margin_enabled : Bool
  sizing_method : SizingMethod
  rebalance_period : ℕ
  rebalance_period_unit : PeriodUnit

/-- Smart stop-loss replacement search: first top-ranked ticker not
currently held and different from the ticker just sold. -/
def findReplacement (p : Portfolio) (ticker : String) :
    List (String × ℚ) → Option (String × ℚ)
  | [] => none
  | (t, s) :: rest =>
    if (dictLookup p.holdings t).isNone ∧ t ≠ ticker then some (t, s)
    else findReplacement p ticker rest

/-- The per-candidate body of the stop-loss block in `run_backtest`:
sell each non-spared candidate at today's price; in smart mode reinvest
the sale revenue into the best replacement. (The source would fail on a
replacement whose today price is NaN; such a replacement cannot arise
because the strategy only ranks tickers with valid prices, and the model
skips that impossible buy.) -/
def stopLossFold (smart : Bool) (top_tickers_with_scores : List (String × ℚ))
    (current_prices : Prices) :
    Portfolio → List String → Portfolio × List (String × SoldRecord) × List BuyRecord
  | p, [] => (p, [], [])
  | p, ticker :: rest =>
    let top_set := top_tickers_with_scores.map Prod.fst
    if smart ∧ ticker ∈ top_set then
      stopLossFold smart top_tickers_with_scores current_prices p rest
    else
      match dictLookup current_prices ticker with
      | some (some price) =>
        let sres := sell_ticker p ticker price
        match sres.2 with
        | some record =>
          let bstep :=
            if smart then
              match findReplacement sres.1 ticker top_tickers_with_scores with
              | some (replacement, replacement_score) =>
                match dictLookup current_prices replacement with
                | some (some buy_price) =>
                  let bres := buy_ticker sres.1 replacement record.revenue buy_price
                    replacement_score none
                  match bres.2 with
                  | some br => (bres.1, [br])
                  | none => (bres.1, [])
                | _ => (sres.1, [])
              | none => (sres.1, [])
            else (sres.1, [])
          let r := stopLossFold smart top_tickers_with_scores current_prices bstep.1 rest
          (r.1, (ticker, record) :: r.2.1, bstep.2 ++ r.2.2)
        | none => stopLossFold smart top_tickers_with_scores current_prices sres.1 rest
      | _ => stopLossFold smart top_tickers_with_scores current_prices p rest

/-- The stop-loss block of `run_backtest` for one day (entered only when a
stop-loss percentage is configured and a previous day exists). -/
def stopLossBlock (cfg : RunConfig)
    (selectTickers : List String → Date → List (String × ℚ))
    (p : Portfolio) (slp : ℚ) (prev_prices current_prices : Prices)
    (date : Date) : Portfolio :=
  let candidates := get_stop_loss_candidates p prev_prices (some slp)
  if candidates = [] then p
  else
    let top_tickers_with_scores :=
      if cfg.smart_stop_loss then
        selectTickers ((current_prices.filter (fun tp => tp.2.isSome)).map Prod.fst) date
      else []
    let r := stopLossFold cfg.smart_stop_loss top_tickers_with_scores current_prices p candidates
    if r.2.1 ≠ [] ∨ r.2.2 ≠ [] then
      { r.1 with rebalance_history := r.1.rebalance_history ++
          [Event.stopLossE date cfg.smart_stop_loss r.2.1 r.2.2 r.1.cash] }
    else r.1

/-- The January-settlement guard of `run_backtest`: settle when no
rebalance has happened yet, or the last rebalance is from a previous year.
Note the source consults `last_rebalance_date`, not the last settlement. -/
def settleDue (last_rebalance_date : Option Date) (date : Date) : Bool :=
  match last_rebalance_date with
  | none => true
  | some last => decide (last.year < date.year)

/-- One iteration of the daily loop of `run_backtest`: stop-loss block,
January tax settlement, rebalance decision, interest accrual, valuation
snapshot. Returns the portfolio, the updated `last_rebalance_date`, and
the settlement invocations of the day (mirroring the log line printed at
the `settle_annual_tax` call site). -/
def runDay (cfg : RunConfig)
    (selectTickers : List String → Date → List (String × ℚ))
    (varMapOf : Date → List (String × ℚ))
    (p : Portfolio) (last_rebalance_date : Option Date) (prev_prices : Option Prices)
    (date : Date) (current_prices : Prices) :
    Portfolio × Option Date × List Date :=
  let p1 :=
    match cfg.stop_loss_pct, prev_prices with
    | some slp, some prevP =>
      if slp ≠ 0 ∧ prevP ≠ [] then
        stopLossBlock cfg selectTickers p slp prevP current_prices date
      else p
    | _, _ => p
  let step2 :=
    if cfg.capital_gains_tax_enabled ∧ date.month = 1 ∧
        settleDue last_rebalance_date date = true then
      (settle_annual_tax p1 date, [date])
    else (p1, ([] : List Date))
  let step3 :=
    if should_rebalance cfg.rebalance_period cfg.rebalance_period_unit
        date last_rebalance_date then
      let available_tickers :=
        (current_prices.filter (fun tp => tp.2.isSome)).map Prod.fst
      let targets := selectTickers available_tickers date
      (rebalance step2.1 targets current_prices date (varMapOf date), some date)
    else (step2.1, last_rebalance_date)
  let p4 := apply_daily_interest step3.1
  let p5 := record_history p4 date current_prices
  (p5, step3.2, step2.2)

/-- The daily loop of `run_backtest`. The ranking strategy is passed as
its `select_tickers` function; the VaR map computed from the full price
history before each rebalance is abstracted as `varMapOf` (it only feeds
`rebalance`'s sizing). Returns the final portfolio and the dates on which
`settle_annual_tax` was invoked. -/
def runLoop (cfg : RunConfig)
    (selectTickers : List String → Date → List (String × ℚ))
    (varMapOf : Date → List (String × ℚ)) :
    Portfolio → Option Date → Option Prices → List (Date × Prices) →
    Portfolio × List Date
  | p, _, _, [] => (p, [])
  | p, last_rebalance_date, prev_prices, (date, current_prices) :: rest =>
    let s := runDay cfg selectTickers varMapOf p last_rebalance_date prev_prices
      date current_prices
    let r := runLoop cfg selectTickers varMapOf s.1 s.2.1 (some current_prices) rest
    (r.1, s.2.2 ++ r.2)

/-- `run_backtest` (data preprocessing elided: `days` is the date-ordered
list of close-price rows in the requested window). -/
def runBacktest (cfg : RunConfig) (initial_capital : ℚ)
    (selectTickers : List String → Date → List (String × ℚ))
    (varMapOf : Date → List (String × ℚ))
    (days : List (Date × Prices)) : Portfolio × List Date :=
  runLoop cfg selectTickers varMapOf
    (mkPortfolio initial_capital cfg.transaction_fee_enabled cfg.transaction_fee_type
      cfg.transaction_fee_value cfg.capital_gains_tax_enabled cfg.capital_gains_tax_pct
      cfg.margin_enabled cfg.sizing_method)
    none none days

/-- Operations on a fresh `Portfolio` as issued by the simulation loop
(claim C1's repertoire: buy, sell, rebalance, tax settlement, interest). -/
inductive AccountOp where
  | buyOp (ticker : String) (amount price score : ℚ)
  | sellOp (ticker : String) (price : ℚ)
  | rebalanceOp (targets : List (String × ℚ)) (prices : Prices) (date : Date)
      (var_map : List (String × ℚ))
  | settleOp (date : Date)
  | interestOp

/-- Execute one account operation, dropping the returned record. -/
def execOp (p : Portfolio) : AccountOp → Portfolio
  | AccountOp.buyOp t amount price score => (buy_ticker p t amount price score none).1
  | AccountOp.sellOp t price => (sell_ticker p t price).1
  | AccountOp.rebalanceOp targets prices date var_map => rebalance p targets prices date var_map
  | AccountOp.settleOp date => settle_annual_tax p date
  | AccountOp.interestOp => apply_daily_interest p

/-- Execute a sequence of account operations. -/
def execOps : Portfolio → List AccountOp → Portfolio :=
  List.foldl execOp

/-- Side conditions satisfied by every operation the run loop issues:
sale prices come from the (nonnegative) price table, and every directly
issued buy allocation is nonnegative and at most the current cash
(rebalance computes its own allocations from cash). -/
def opOK (p : Portfolio) : AccountOp → Prop
  | AccountOp.buyOp _ amount _ _ => 0 ≤ amount ∧ amount ≤ p.cash
  | AccountOp.sellOp _ price => 0 ≤ price
  | AccountOp.rebalanceOp _ prices _ _ => ∀ tp ∈ prices, 0 ≤ tp.2.getD 0
  | AccountOp.settleOp _ => True
  | AccountOp.interestOp => True

/-- All operations of a sequence satisfy `opOK` at their point of execution. -/
def opsOK : Portfolio → List AccountOp → Prop
  | _, [] => True
  | p, op :: rest => opOK p op ∧ opsOK (execOp p op) rest

/-- Every held quantity is positive (fresh accounts hold nothing; buys
insert quantities ≥ 1). -/
def HoldPos (p : Portfolio) : Prop :=
  ∀ tq ∈ p.holdings, (0 : ℤ) < tq.2

/-- Buy/sell calls for claim C2's sequences. -/
inductive TradeOp where
  | buyT (ticker : String) (amount price score : ℚ)
  | sellT (ticker : String) (price : ℚ)

/-- Execute one buy/sell call. -/
def execTradeOp (p : Portfolio) : TradeOp → Portfolio
  | TradeOp.buyT t amount price score => (buy_ticker p t amount price score none).1
  | TradeOp.sellT t price => (sell_ticker p t price).1

/-- Execute a sequence of buy/sell calls. -/
def execTradeOps : Portfolio → List TradeOp → Portfolio :=
  List.foldl execTradeOp

/-- The key sets of `holdings`, `cost_basis` and `entry_prices` coincide. -/
def sameKeySets (p : Portfolio) : Prop :=
  ∀ t : String,
    ((dictLookup p.holdings t).isSome ↔ (dictLookup p.cost_basis t).isSome) ∧
    ((dictLookup p.holdings t).isSome ↔ (dictLookup p.entry_prices t).isSome)

/-- Modelled from the claim C4 wording: walk the carryforward entries in
order, deducting for each exactly `min(0.5 * entry_loss, remaining_profit)`
and dropping entries left with at most 1 cent. Returns the residual
profit and the kept entries. -/
def c4walk (remaining_profit : ℚ) : List (ℤ × ℚ) → ℚ × List (ℤ × ℚ)
  | [] => (remaining_profit, [])
  | (loss_year, loss_amount) :: rest =>
    let d := min (loss_amount * (1 / 2)) remaining_profit
    let rem := loss_amount - d
    let r := c4walk (remaining_profit - d) rest
    (r.1, if rem ≤ 1 / 100 then r.2 else (loss_year, rem) :: r.2)

/-- The amended C4 walk: identical to `c4walk` except that entries reached
after the remaining profit is exhausted are kept unchanged (even when at
most 1 cent remains), matching the source's short-circuit branch. -/
def c4walkAmended (remaining_profit : ℚ) : List (ℤ × ℚ) → ℚ × List (ℤ × ℚ)
  | [] => (remaining_profit, [])
  | (loss_year, loss_amount) :: rest =>
    if remaining_profit ≤ 0 then
      let r := c4walkAmended remaining_profit rest
      (r.1, (loss_year, loss_amount) :: r.2)
    else
      let d := min (loss_amount * (1 / 2)) remaining_profit
      let rem := loss_amount - d
      let r := c4walkAmended (remaining_profit - d) rest
      (r.1, if rem ≤ 1 / 100 then r.2 else (loss_year, rem) :: r.2)

/-- Modelled from the claim C5 wording: the mark-to-market value summed
over exactly those held tickers that have a valid price today. -/
def specDayValue (holdings : List (String × ℤ)) (prices : Prices) : ℚ :=
  (prices.filterMap (fun tp =>
    match tp.2, dictLookup holdings tp.1 with
    | some v, some q => some ((q : ℚ) * v)
    | _, _ => none)).sum

/-- Some held ticker appears in today's price row with a NaN price. -/
def heldMissing (holdings : List (String × ℤ)) (prices : Prices) : Bool :=
  prices.any (fun tp => tp.2.isNone && (dictLookup holdings tp.1).isSome)

/-- Ticker used in concrete scenarios. -/
def tA : String := "A"

/-- Second ticker used in concrete scenarios. -/
def tB : String := "B"

/-- Strategy stub for concrete runs: rank every available ticker with score 0. -/
def selAll : List String → Date → List (String × ℚ) :=
  fun available _ => available.map (fun t => (t, 0))

/-- VaR oracle stub for concrete runs: no VaR data. -/
def varNone : Date → List (String × ℚ) :=
  fun _ => []

/-- Concrete run for claim C1: margin disabled, 1% percentage fee. -/
def cfgC1 : RunConfig where
  stop_loss_pct := none
  smart_stop_loss := false
  transaction_fee_enabled := true
  transaction_fee_type := FeeType.percentage
  transaction_fee_value := 1
  capital_gains_tax_enabled := false
  capital_gains_tax_pct := 0
  margin_enabled := false
  sizing_method := SizingMethod.equal
  rebalance_period := 1
  rebalance_period_unit := PeriodUnit.months

/-- A single trading day for the C1 run. -/
def daysC1 : List (Date × Prices) :=
  [(⟨2020, 6, 0⟩, [(tA, some 100)])]

/-- Concrete run for claim C3: tax enabled, margin and fees off, a
300-day rebalance period, and trading days 2020-06-01 (day 0) followed by
2021-01-04 (day 217) and 2021-01-05 (day 218). -/
def cfgC3 : RunConfig where
  stop_loss_pct := none
  smart_stop_loss := false
  transaction_fee_enabled := false
  transaction_fee_type := FeeType.percentage
  transaction_fee_value := 0
  capital_gains_tax_enabled := true
  capital_gains_tax_pct := 19
  margin_enabled := false
  sizing_method := SizingMethod.equal
  rebalance_period := 300
  rebalance_period_unit := PeriodUnit.days

/-- First January trading day of 2021 for the C3 run. -/
def dJan4 : Date := ⟨2021, 1, 217⟩

/-- Second January trading day of 2021 for the C3 run. -/
def dJan5 : Date := ⟨2021, 1, 218⟩

/-- The three trading days of the C3 run. -/
def daysC3 : List (Date × Prices) :=
  [(⟨2020, 6, 0⟩, [(tA, some 100)]),
   (dJan4, [(tA, some 100)]),
   (dJan5, [(tA, some 100)])]

/-- Concrete run for claim C5: no fees, no tax, margin disabled; ticker A
is bought on day 1 and has a NaN price on day 2. -/
def cfgC5 : RunConfig where
  stop_loss_pct := none
  smart_stop_loss := false
  transaction_fee_enabled := false
  transaction_fee_type := FeeType.percentage
  transaction_fee_value := 0
  capital_gains_tax_enabled := false
  capital_gains_tax_pct := 0
  margin_enabled := false
  sizing_method := SizingMethod.equal
  rebalance_period := 1
  rebalance_period_unit := PeriodUnit.months

/-- Day 1 of the C5 run. -/
def dayOneC5 : Date × Prices := (⟨2020, 6, 0⟩, [(tA, some 100)])

/-- Day 2 of the C5 run: ticker A's price is missing (NaN). -/
def dayTwoC5 : Date × Prices := (⟨2020, 6, 1⟩, [(tA, none)])

/-- Portfolio state for the C4 counterexample: tax enabled at 19%, this
year's realized profit 1, and two carryforward entries, the second worth
half a cent. -/
def pC4 : Portfolio :=
  { mkPortfolio 1000 false FeeType.percentage 0 true 19 false SizingMethod.equal with
      annual_realized_pnl := 1,
      loss_carryforward := [(2020, 2), (2021, 1 / 200)] }

/-- Settlement date for the C4 counterexample. -/
def dC4 : Date := ⟨2022, 1, 500⟩

/-- Fresh default-configuration portfolio used by concrete witnesses. -/
def pFresh : Portfolio :=
  mkPortfolio 10000 false FeeType.percentage 0 false 0 false SizingMethod.equal

/-- Witness portfolio holding one share of ticker A at entry price 100. -/
def pSL : Portfolio :=
  { pFresh with holdings := [(tA, 1)], cost_basis := [(tA, 100)], entry_prices := [(tA, 100)] }

/-- Witness portfolio holding seven shares of ticker A. -/
def pHeld : Portfolio :=
  { pFresh with holdings := [(tA, 7)], cost_basis := [(tA, 700)], entry_prices := [(tA, 100)] }

/-- Loss-year portfolio for the C7 witness. -/
def pLoss : Portfolio :=
  { mkPortfolio 1000 false FeeType.percentage 0 true 19 false SizingMethod.equal with
      annual_realized_pnl := -500,
      loss_carryforward := [(2015, 100), (2019, 50)] }

/-- Settlement date for the C7 witness. -/
def dW7 : Date := ⟨2021, 1, 0⟩

/-- Nodup keys on all three position maps together with identical key sets. -/
def mapsAligned (p : Portfolio) : Prop :=
  (dictKeys p.holdings).Nodup ∧ (dictKeys p.cost_basis).Nodup ∧
  (dictKeys p.entry_prices).Nodup ∧ sameKeySets p

/-- The three enablement flags the claim C1 invariant depends on. -/
def flagsOf (p : Portfolio) : Bool × Bool × Bool :=
  (p.margin_enabled, p.transaction_fee_enabled, p.capital_gains_tax_enabled)

/-- Sum of the (clamped) allocations a buy loop can spend on its tickers. -/
def allocSum (allocs : List (String × ℚ)) : List String → ℚ
  | [] => 0
  | t :: rest => max ((dictLookup allocs t).getD 0) 0 + allocSum allocs rest

/-- Operation sequence for the C1 witness: buy, sell, rebalance, settle,
accrue interest. -/
def opsW : List AccountOp :=
  [AccountOp.buyOp tA 10000 100 0,
   AccountOp.sellOp tA 110,
   AccountOp.rebalanceOp [(tB, 1)] [(tA, some 105), (tB, some 50)] ⟨2020, 7, 10⟩ [],
   AccountOp.settleOp ⟨2021, 1, 100⟩,
   AccountOp.interestOp]

theorem dictKeys_cons (a : String) (w : α) (tl : List (String × α)) :
    dictKeys ((a, w) :: tl) = a :: dictKeys tl := rfl

theorem dictLookup_dictInsert (l : List (String × α)) (k : String) (v : α) (k' : String) :
    dictLookup (dictInsert l k v) k' = if k' = k then some v else dictLookup l k' := by
  induction l with
  | nil =>
    by_cases h : k' = k
    · simp [dictInsert, dictLookup, h]
    · simp [dictInsert, dictLookup, h, Ne.symm h]
  | cons hd tl ih =>
    obtain ⟨a, w⟩ := hd
    by_cases hak : a = k
    · subst hak
      by_cases h : k' = a
      · simp [dictInsert, dictLookup, h]
      · simp [dictInsert, dictLookup, h, Ne.symm h]
    · by_cases h2 : a = k'
      · subst h2
        simp [dictInsert, dictLookup, hak]
      · simp [dictInsert, dictLookup, hak, h2, ih]

theorem dictLookup_dictErase_ne (l : List (String × α)) (k k' : String) (h : k' ≠ k) :
    dictLookup (dictErase l k) k' = dictLookup l k' := by
  induction l with
  | nil => simp [dictErase]
  | cons hd tl ih =>
    obtain ⟨a, w⟩ := hd
    by_cases hak : a = k
    · subst hak
      simp [dictErase, dictLookup, Ne.symm h]
    · by_cases h2 : a = k'
      · subst h2
        simp [dictErase, dictLookup, hak]
      · simp [dictErase, dictLookup, hak, h2, ih]

theorem dictLookup_eq_none_of_not_mem (l : List (String × α)) (k : String)
    (h : k ∉ dictKeys l) : dictLookup l k = none := by
  induction l with
  | nil => simp [dictLookup]
  | cons hd tl ih =>
    obtain ⟨a, w⟩ := hd
    rw [dictKeys_cons, List.mem_cons, not_or] at h
    have hne : ¬ a = k := fun hh => h.1 hh.symm
    simp [dictLookup, hne, ih h.2]

theorem dictLookup_dictErase_self (l : List (String × α)) (k : String)
    (h : (dictKeys l).Nodup) : dictLookup (dictErase l k) k = none := by
  induction l with
  | nil => simp [dictErase, dictLookup]
  | cons hd tl ih =>
    obtain ⟨a, w⟩ := hd
    rw [dictKeys_cons, List.nodup_cons] at h
    by_cases hak : a = k
    · subst hak
      simp only [dictErase, if_pos rfl]
      exact dictLookup_eq_none_of_not_mem tl a h.1
    · simp [dictErase, dictLookup, hak, ih h.2]

theorem dictLookup_mem (l : List (String × α)) (k : String) (v : α)
    (h : dictLookup l k = some v) : (k, v) ∈ l := by
  induction l with
  | nil => simp [dictLookup] at h
  | cons hd tl ih =>
    obtain ⟨a, w⟩ := hd
    by_cases hak : a = k
    · subst hak
      simp [dictLookup] at h
      simp [h]
    · simp [dictLookup, hak] at h
      simp [ih h]

theorem dictKeys_dictInsert (l : List (String × α)) (k : String) (v : α) :
    dictKeys (dictInsert l k v) = if k ∈ dictKeys l then dictKeys l else dictKeys l ++ [k] := by
  induction l with
  | nil => simp [dictInsert, dictKeys]
  | cons hd tl ih =>
    obtain ⟨a, w⟩ := hd
    by_cases hak : a = k
    · subst hak
      simp [dictInsert, dictKeys_cons]
    · have hka : ¬ k = a := fun hh => hak hh.symm
      by_cases hmem : k ∈ dictKeys tl
      · simp [dictInsert, dictKeys_cons, hak, ih, hmem, hka]
      · simp [dictInsert, dictKeys_cons, hak, ih, hmem, hka]

theorem dictErase_sublist (l : List (String × α)) (k : String) :
    (dictErase l k).Sublist l := by
  induction l with
  | nil => simp [dictErase]
  | cons hd tl ih =>
    obtain ⟨a, w⟩ := hd
    by_cases hak : a = k
    · simp only [dictErase, if_pos hak]
      exact List.sublist_cons_self (a, w) tl
    · simpa [dictErase, hak] using ih.cons₂ (a, w)

theorem dictKeys_nodup_dictInsert (l : List (String × α)) (k : String) (v : α)
    (h : (dictKeys l).Nodup) : (dictKeys (dictInsert l k v)).Nodup := by
  rw [dictKeys_dictInsert]
  by_cases hmem : k ∈ dictKeys l
  · simp only [if_pos hmem]
    exact h
  · simp only [if_neg hmem]
    simpa [List.nodup_append] using ⟨h, hmem⟩

theorem dictKeys_nodup_dictErase (l : List (String × α)) (k : String)
    (h : (dictKeys l).Nodup) : (dictKeys (dictErase l k)).Nodup :=
  ((dictErase_sublist l k).map Prod.fst).nodup h

theorem settleFinish_loss_carryforward (p : Portfolio) (d : Date) (L : List (ℤ × ℚ))
    (tp : ℚ) (ds : List Deduction) :
    (settleFinish p d L tp ds).loss_carryforward = L := by
  simp only [settleFinish]
  split_ifs <;> rfl

theorem settleFinish_cash (p : Portfolio) (d : Date) (L : List (ℤ × ℚ))
    (tp : ℚ) (ds : List Deduction) :
    (settleFinish p d L tp ds).cash =
      p.cash - (if 0 < tp then tp * (p.capital_gains_tax_pct / 100) else 0) := by
  simp only [settleFinish]
  split_ifs <;> rfl

theorem settleFinish_pnl (p : Portfolio) (d : Date) (L : List (ℤ × ℚ))
    (tp : ℚ) (ds : List Deduction) :
    (settleFinish p d L tp ds).annual_realized_pnl = 0 := by
  simp only [settleFinish]

/-- Claim C7: when tax settlement runs on a year whose realized P&L is
negative, it appends exactly one carryforward entry `(year, |pnl|)` to the
(expiry-cleaned) carryforward list, charges zero tax (cash unchanged), and
resets `annual_realized_pnl` to zero. -/
theorem C7_loss_year_settlement (p : Portfolio) (date : Date)
    (henabled : p.capital_gains_tax_enabled = true)
    (hneg : p.annual_realized_pnl < 0) :
    (settle_annual_tax p date).loss_carryforward =
      p.loss_carryforward.filter (fun yl => decide (date.year - yl.1 < 5)) ++
        [(date.year, |p.annual_realized_pnl|)] ∧
    (settle_annual_tax p date).cash = p.cash ∧
    (settle_annual_tax p date).annual_realized_pnl = 0 := by
  have hs : settle_annual_tax p date =
      settleFinish p date
        (p.loss_carryforward.filter (fun yl => decide (date.year - yl.1 < 5)) ++
          [(date.year, |p.annual_realized_pnl|)])
        p.annual_realized_pnl [] := by
    simp [settle_annual_tax, henabled, hneg]
  refine ⟨?_, ?_, ?_⟩
  · rw [hs, settleFinish_loss_carryforward]
  · rw [hs, settleFinish_cash]
    simp [asymm hneg]
  · rw [hs, settleFinish_pnl]

theorem C7_witness :
    pLoss.capital_gains_tax_enabled = true ∧ pLoss.annual_realized_pnl < 0 ∧
    ((settle_annual_tax pLoss dW7).loss_carryforward =
        pLoss.loss_carryforward.filter (fun yl => decide (dW7.year - yl.1 < 5)) ++
          [(dW7.year, |pLoss.annual_realized_pnl|)] ∧
      (settle_annual_tax pLoss dW7).cash = pLoss.cash ∧
      (settle_annual_tax pLoss dW7).annual_realized_pnl = 0) ∧
    (settle_annual_tax pLoss dW7).loss_carryforward = [(2019, 50), (2021, 500)] :=
  ⟨rfl, by decide, C7_loss_year_settlement pLoss dW7 rfl (by decide), by decide⟩

/-- Claim C8: selling a ticker not present in holdings returns no record
and leaves the entire account state unchanged. -/
theorem C8_sell_unheld_noop (p : Portfolio) (ticker : String) (price : ℚ)
    (h : dictLookup p.holdings ticker = none) :
    sell_ticker p ticker price = (p, none) := by
  unfold sell_ticker
  rw [h]

theorem C8_witness :
    dictLookup pFresh.holdings tB = none ∧ sell_ticker pFresh tB 50 = (pFresh, none) :=
  ⟨rfl, C8_sell_unheld_noop pFresh tB 50 rfl⟩

/-- Claim C6: for a positive price, the quantity computed with margin
enabled is exactly one share more than with margin disabled, and
`buy_ticker` at a non-positive price returns nothing with no state change. -/
theorem C6_margin_extra_share (p : Portfolio) (ticker : String)
    (amount price score : ℚ) (var : Option ℚ) :
    (0 < price → buyQuantity true amount price = buyQuantity false amount price + 1) ∧
    (price ≤ 0 → buy_ticker p ticker amount price score var = (p, none)) := by
  constructor
  · intro _
    simp [buyQuantity]
  · intro h
    simp [buy_ticker, h]

theorem C6_witness :
    ((0 : ℚ) < 100 ∧ buyQuantity true 250 100 = buyQuantity false 250 100 + 1) ∧
    ((-5 : ℚ) ≤ 0 ∧ buy_ticker pFresh tA 250 (-5) 0 none = (pFresh, none)) :=
  ⟨⟨by norm_num, (C6_margin_extra_share pFresh tA 250 100 0 none).1 (by norm_num)⟩,
   ⟨by norm_num, (C6_margin_extra_share pFresh tA 250 (-5) 0 none).2 (by norm_num)⟩⟩

/-- Claim C10: buying a ticker that is already held overwrites the
position (quantity, cost basis, entry price are replaced, not added)
while cash is debited by the full new cost plus fee. -/
theorem C10_buy_overwrites (p : Portfolio) (ticker : String)
    (amount price score : ℚ) (var : Option ℚ) (q0 : ℤ)
    (hheld : dictLookup p.holdings ticker = some q0)
    (hprice : 0 < price)
    (hqty : 0 < buyQuantity p.margin_enabled amount price) :
    dictLookup (buy_ticker p ticker amount price score var).1.holdings ticker
      = some (buyQuantity p.margin_enabled amount price) ∧
    dictLookup (buy_ticker p ticker amount price score var).1.cost_basis ticker
      = some ((buyQuantity p.margin_enabled amount price : ℚ) * price) ∧
    dictLookup (buy_ticker p ticker amount price score var).1.entry_prices ticker
      = some price ∧
    (buy_ticker p ticker amount price score var).1.cash
      = p.cash - ((buyQuantity p.margin_enabled amount price : ℚ) * price
          + calcFee p ((buyQuantity p.margin_enabled amount price : ℚ) * price)) := by
  have h1 : ¬ price ≤ 0 := not_le.mpr hprice
  have h2 : ¬ buyQuantity p.margin_enabled amount price ≤ 0 := not_le.mpr hqty
  simp [buy_ticker, h1, h2, dictLookup_dictInsert]

theorem C10_witness :
    dictLookup pHeld.holdings tA = some 7 ∧ (0 : ℚ) < 50 ∧
    0 < buyQuantity pHeld.margin_enabled 250 50 ∧
    dictLookup (buy_ticker pHeld tA 250 50 0 none).1.holdings tA
      = some (buyQuantity pHeld.margin_enabled 250 50) ∧
    buyQuantity pHeld.margin_enabled 250 50 = 5 ∧
    (buy_ticker pHeld tA 250 50 0 none).1.cash = 9750 :=
  ⟨by decide, by norm_num, by norm_num [buyQuantity, pHeld, pFresh, mkPortfolio],
   (C10_buy_overwrites pHeld tA 250 50 0 none 7 (by decide) (by norm_num)
      (by norm_num [buyQuantity, pHeld, pFresh, mkPortfolio])).1,
   by norm_num [buyQuantity, pHeld, pFresh, mkPortfolio],
   by norm_num [buy_ticker, buyQuantity, calcFee, pHeld, pFresh, mkPortfolio]⟩

/-- Claim C9: a held ticker with a valid prior-day price and positive
entry price is a stop-loss candidate exactly when
`prior_close < entry_price * (1 - stop_loss_pct)` (strict inequality). -/
theorem C9_stop_loss_strict (p : Portfolio) (trigger_prices : Prices)
    (slp trig entry : ℚ) (ticker : String) (q : ℤ)
    (hheld : dictLookup p.holdings ticker = some q)
    (htrig : dictLookup trigger_prices ticker = some (some trig))
    (hentry : dictLookup p.entry_prices ticker = some entry)
    (hpos : 0 < entry) :
    ticker ∈ get_stop_loss_candidates p trigger_prices (some slp) ↔
      trig < entry * (1 - slp) := by
  simp only [get_stop_loss_candidates, List.mem_map, List.mem_filter]
  constructor
  · rintro ⟨⟨t2, q2⟩, ⟨hmem2, hpred⟩, rfl⟩
    simp only [htrig, hentry, Option.getD_some, decide_eq_true_eq] at hpred
    exact hpred.2
  · intro h
    refine ⟨(ticker, q), ⟨dictLookup_mem _ _ _ hheld, ?_⟩, rfl⟩
    simp only [htrig, hentry, Option.getD_some, decide_eq_true_eq]
    exact ⟨hpos, h⟩

theorem C9_witness :
    (tA ∈ get_stop_loss_candidates pSL [(tA, some 89)] (some (1 / 10)) ↔
        (89 : ℚ) < 100 * (1 - 1 / 10)) ∧
    (tA ∈ get_stop_loss_candidates pSL [(tA, some 91)] (some (1 / 10)) ↔
        (91 : ℚ) < 100 * (1 - 1 / 10)) ∧
    (89 : ℚ) < 100 * (1 - 1 / 10) ∧ ¬ (91 : ℚ) < 100 * (1 - 1 / 10) :=
  ⟨C9_stop_loss_strict pSL [(tA, some 89)] (1 / 10) 89 100 tA 1
      (by decide) (by decide) (by decide) (by norm_num),
   C9_stop_loss_strict pSL [(tA, some 91)] (1 / 10) 91 100 tA 1
      (by decide) (by decide) (by decide) (by norm_num),
   by norm_num, by norm_num⟩

/-- Claim C1 counterexample: a one-day run with margin disabled and a 1%
transaction fee ends with negative cash (the equal-weight allocation does
not reserve room for the fee), refuting "cash is never negative unless
margin is enabled". -/
theorem C1_counterexample :
    (runBacktest cfgC1 10000 selAll varNone daysC1).1.cash < 0 ∧
    (runBacktest cfgC1 10000 selAll varNone daysC1).1.margin_enabled = false := by
  norm_num [runBacktest, runLoop, runDay, mkPortfolio, cfgC1, daysC1, selAll, varNone,
    should_rebalance, settleDue, rebalance, sellLoop, buyLoop, dictKeys, dictLookup,
    dictInsert, buy_ticker, buyQuantity, calcFee, sell_ticker, apply_daily_interest,
    record_history, get_total_value, holdingsValue, settle_annual_tax, invVar, tA]

/-- Claim C3 (code bug): in a run with tax enabled where no rebalance
occurs between two January trading days of the same year, the loop's
guard (which consults `last_rebalance_date`, not the last settlement)
invokes `settle_annual_tax` on both days — twice for one calendar year,
contradicting the source comment "Only settle once per year". -/
theorem C3_double_settlement :
    (runBacktest cfgC3 10000 selAll varNone daysC3).2 = [dJan4, dJan5] ∧
    dJan4.year = dJan5.year ∧ dJan4 ≠ dJan5 := by
  norm_num [runBacktest, runLoop, runDay, mkPortfolio, cfgC3, daysC3, selAll, varNone,
    should_rebalance, settleDue, rebalance, sellLoop, buyLoop, dictKeys, dictLookup,
    dictInsert, buy_ticker, buyQuantity, calcFee, sell_ticker, apply_daily_interest,
    record_history, get_total_value, holdingsValue, settle_annual_tax, settleFinish,
    applyLossDeductions, invVar, tA, dJan4, dJan5, Date.mk.injEq]

/-- Claim C4 counterexample: with profit 1 and carryforward entries
`[(2020, 2), (2021, 0.005)]` settled in 2022, the first entry absorbs the
whole profit, and the source then keeps the half-cent entry untouched
(short-circuit branch), while the claim's walk ("deduct for each exactly
min(0.5*loss, remaining); drop entries left with at most 1 cent") drops it. -/
theorem C4_counterexample :
    (settle_annual_tax pC4 dC4).loss_carryforward = [(2020, 1), (2021, 1 / 200)] ∧
    (c4walk pC4.annual_realized_pnl
        (pC4.loss_carryforward.filter (fun yl => decide (dC4.year - yl.1 < 5)))).2
      = [(2020, 1)] ∧
    ([(2020, 1), (2021, 1 / 200)] : List (ℤ × ℚ)) ≠ [(2020, 1)] := by
  norm_num [settle_annual_tax, settleFinish, applyLossDeductions, pC4, mkPortfolio,
    dC4, c4walk, List.cons_ne_nil]

/-- Claim C5 counterexample: in a two-day run where held ticker A has a
NaN price on day 2, the recorded day-2 total value is NaN (`none`) — the
float sum is poisoned — whereas the claim's "exclude missing prices"
valuation would record cash + 0 = 0. -/
theorem C5_counterexample :
    ((runBacktest cfgC5 10000 selAll varNone [dayOneC5, dayTwoC5]).1.history.map
        (fun h => h.total_value)) = [some 10000, none] ∧
    (runBacktest cfgC5 10000 selAll varNone [dayOneC5]).1.cash +
        specDayValue (runBacktest cfgC5 10000 selAll varNone [dayOneC5]).1.holdings
          dayTwoC5.2 = 0 := by
  norm_num [runBacktest, runLoop, runDay, mkPortfolio, cfgC5, dayOneC5, dayTwoC5, selAll,
    varNone, should_rebalance, settleDue, rebalance, sellLoop, buyLoop, dictKeys,
    dictLookup, dictInsert, buy_ticker, buyQuantity, calcFee, sell_ticker,
    apply_daily_interest, record_history, get_total_value, holdingsValue,
    settle_annual_tax, invVar, tA, specDayValue]

theorem holdingsValue_eq (holdings : List (String × ℤ)) (prices : Prices) :
    holdingsValue holdings prices =
      if heldMissing holdings prices then none else some (specDayValue holdings prices) := by
  induction prices with
  | nil => simp [holdingsValue, heldMissing, specDayValue]
  | cons hd rest ih =>
    obtain ⟨t, priceOpt⟩ := hd
    have hcons : heldMissing holdings ((t, priceOpt) :: rest) =
        ((priceOpt.isNone && (dictLookup holdings t).isSome) || heldMissing holdings rest) := by
      simp [heldMissing]
    cases hq : dictLookup holdings t with
    | none =>
      have h1 : holdingsValue holdings ((t, priceOpt) :: rest) = holdingsValue holdings rest := by
        simp [holdingsValue, hq]
      have h2 : specDayValue holdings ((t, priceOpt) :: rest) = specDayValue holdings rest := by
        cases priceOpt <;> simp [specDayValue, hq]
      have h3 : heldMissing holdings ((t, priceOpt) :: rest) = heldMissing holdings rest := by
        rw [hcons, hq]
        cases priceOpt <;> simp
      rw [h1, h2, h3, ih]
    | some q =>
      cases priceOpt with
      | none =>
        have h3 : heldMissing holdings ((t, none) :: rest) = true := by
          rw [hcons, hq]
          simp
        have h1 : holdingsValue holdings ((t, none) :: rest) = none := by
          simp [holdingsValue, hq]
        rw [h1, h3]
        simp
      | some v =>
        have h3 : heldMissing holdings ((t, some v) :: rest) = heldMissing holdings rest := by
          rw [hcons]
          simp
        have h2 : specDayValue holdings ((t, some v) :: rest) =
            (q : ℚ) * v + specDayValue holdings rest := by
          simp [specDayValue, hq]
        by_cases hm : heldMissing holdings rest
        · have h1 : holdingsValue holdings ((t, some v) :: rest) = none := by
            simp [holdingsValue, hq, ih, hm]
          rw [h1, h3]
          simp [hm]
        · have h1 : holdingsValue holdings ((t, some v) :: rest)
              = some ((q : ℚ) * v + specDayValue holdings rest) := by
            simp [holdingsValue, hq, ih, hm]
          rw [h1, h3, h2]
          simp [hm]

/-- Claim C5 (amended): every snapshot records {date, total value, cash}
where the total value equals cash plus the mark-to-market sum over exactly
the held tickers with a valid price — provided no held ticker's price is
missing that day; a held ticker with a missing price makes the whole
recorded total value NaN (`none`), not excluded. -/
theorem C5_amended_valuation (p : Portfolio) (date : Date) (prices : Prices) :
    (record_history p date prices).history =
      p.history ++ [⟨date,
        if heldMissing p.holdings prices then none
        else some (p.cash + specDayValue p.holdings prices), p.cash⟩] := by
  rw [record_history]
  simp only [get_total_value, holdingsValue_eq]
  by_cases hm : heldMissing p.holdings prices
  · simp [hm]
  · simp [hm]

theorem buy_mapsAligned (p : Portfolio) (t : String) (a pr s : ℚ) (v : Option ℚ)
    (h : mapsAligned p) : mapsAligned (buy_ticker p t a pr s v).1 := by
  obtain ⟨hn1, hn2, hn3, hs⟩ := h
  simp only [buy_ticker]
  split_ifs with h1 h2
  · exact ⟨hn1, hn2, hn3, hs⟩
  · exact ⟨hn1, hn2, hn3, hs⟩
  · refine ⟨dictKeys_nodup_dictInsert _ _ _ hn1, dictKeys_nodup_dictInsert _ _ _ hn2,
      dictKeys_nodup_dictInsert _ _ _ hn3, ?_⟩
    intro s2
    obtain ⟨ha, hb⟩ := hs s2
    by_cases hst : s2 = t
    · simp [dictLookup_dictInsert, hst]
    · simp [dictLookup_dictInsert, hst, ha, hb]
      exact Bool.eq_iff_iff.mpr (ha.symm.trans hb)

theorem sell_mapsAligned (p : Portfolio) (t : String) (price : ℚ)
    (h : mapsAligned p) : mapsAligned (sell_ticker p t price).1 := by
  obtain ⟨hn1, hn2, hn3, hs⟩ := h
  unfold sell_ticker
  cases hq : dictLookup p.holdings t with
  | none => exact ⟨hn1, hn2, hn3, hs⟩
  | some q =>
    refine ⟨dictKeys_nodup_dictErase _ _ hn1, dictKeys_nodup_dictErase _ _ hn2, ?_, ?_⟩
    · by_cases he : (dictLookup p.entry_prices t).isSome
      · simp only [he, if_true]
        exact dictKeys_nodup_dictErase _ _ hn3
      · simp only [he, if_false]
        exact hn3
    · intro s2
      obtain ⟨ha, hb⟩ := hs s2
      by_cases hst : s2 = t
      · subst hst
        have e1 : dictLookup (dictErase p.holdings s2) s2 = none :=
          dictLookup_dictErase_self _ _ hn1
        have e2 : dictLookup (dictErase p.cost_basis s2) s2 = none :=
          dictLookup_dictErase_self _ _ hn2
        by_cases he : (dictLookup p.entry_prices s2).isSome
        · have e3 : dictLookup (dictErase p.entry_prices s2) s2 = none :=
            dictLookup_dictErase_self _ _ hn3
          simp [he, e1, e2, e3]
        · simp [he, e1, e2]
      · have e1 : dictLookup (dictErase p.holdings t) s2 = dictLookup p.holdings s2 :=
          dictLookup_dictErase_ne _ _ _ hst
        have e2 : dictLookup (dictErase p.cost_basis t) s2 = dictLookup p.cost_basis s2 :=
          dictLookup_dictErase_ne _ _ _ hst
        by_cases he : (dictLookup p.entry_prices t).isSome
        · have e3 : dictLookup (dictErase p.entry_prices t) s2 = dictLookup p.entry_prices s2 :=
            dictLookup_dictErase_ne _ _ _ hst
          simp [he, e1, e2, e3, ha, hb]
          exact Bool.eq_iff_iff.mpr (ha.symm.trans hb)
        · simp [he, e1, e2, ha, hb]
          exact Bool.eq_iff_iff.mpr (ha.symm.trans hb)

theorem execTradeOps_mapsAligned (ops : List TradeOp) (p : Portfolio)
    (h : mapsAligned p) : mapsAligned (execTradeOps p ops) := by
  induction ops generalizing p with
  | nil => exact h
  | cons op rest ih =>
    cases op with
    | buyT t a pr s =>
      exact ih _ (buy_mapsAligned p t a pr s none h)
    | sellT t pr =>
      exact ih _ (sell_mapsAligned p t pr h)

/-- Claim C2: starting from a fresh account, after any sequence of
`buy_ticker`/`sell_ticker` calls the key sets of `holdings`, `cost_basis`
and `entry_prices` coincide (every prefix of a sequence is itself a
sequence, so this covers "after every call"). -/
theorem C2_key_sets_aligned (ic : ℚ) (fe : Bool) (ft : FeeType) (fv : ℚ)
    (te : Bool) (tpc : ℚ) (me : Bool) (sm : SizingMethod) (ops : List TradeOp) :
    sameKeySets (execTradeOps (mkPortfolio ic fe ft fv te tpc me sm) ops) :=
  (execTradeOps_mapsAligned ops _
    ⟨by simp [mkPortfolio, dictKeys], by simp [mkPortfolio, dictKeys],
     by simp [mkPortfolio, dictKeys],
     fun t => by simp [mkPortfolio, dictLookup]⟩).2.2.2

theorem applyLossDeductions_eq_c4walkAmended (l : List (ℤ × ℚ)) (rp : ℚ) :
    (applyLossDeductions rp l).1 = (c4walkAmended rp l).1 ∧
    (applyLossDeductions rp l).2.1 = (c4walkAmended rp l).2 := by
  induction l generalizing rp with
  | nil => exact ⟨rfl, rfl⟩
  | cons hd rest ih =>
    obtain ⟨y, la⟩ := hd
    by_cases h : rp ≤ 0
    · constructor
      · simp only [applyLossDeductions, c4walkAmended, if_pos h]
        exact (ih rp).1
      · simp only [applyLossDeductions, c4walkAmended, if_pos h]
        simp [(ih rp).2]
    · constructor
      · simp only [applyLossDeductions, c4walkAmended, if_neg h]
        exact (ih _).1
      · simp only [applyLossDeductions, c4walkAmended, if_neg h]
        rw [(ih (rp - min (la * (1 / 2)) rp)).2]
        by_cases h1 : (1 : ℚ) / 100 < la - min (la * (1 / 2)) rp
        · rw [if_pos h1, if_neg (not_le.mpr h1)]
        · rw [if_neg h1, if_pos (not_lt.mp h1)]

/-- Claim C4 (amended): after dropping entries aged 5 or more tax years,
the walk deducts `min(0.5*loss, remaining)` from each entry reached while
remaining profit is positive (dropping it when at most 1 cent remains),
keeps entries reached after the profit is exhausted unchanged, and
charges tax on the residual only when positive. -/
theorem C4_amended_settlement (p : Portfolio) (date : Date)
    (henabled : p.capital_gains_tax_enabled = true)
    (hpos : 0 < p.annual_realized_pnl)
    (hlcf : p.loss_carryforward ≠ []) :
    (settle_annual_tax p date).loss_carryforward =
      (c4walkAmended p.annual_realized_pnl
        (p.loss_carryforward.filter (fun yl => decide (date.year - yl.1 < 5)))).2 ∧
    (settle_annual_tax p date).cash = p.cash -
      (if 0 < (c4walkAmended p.annual_realized_pnl
            (p.loss_carryforward.filter (fun yl => decide (date.year - yl.1 < 5)))).1 then
          (c4walkAmended p.annual_realized_pnl
            (p.loss_carryforward.filter (fun yl => decide (date.year - yl.1 < 5)))).1 *
            (p.capital_gains_tax_pct / 100)
        else 0) ∧
    (settle_annual_tax p date).annual_realized_pnl = 0 := by
  have hnotneg : ¬ p.annual_realized_pnl < 0 := asymm hpos
  by_cases hemp : p.loss_carryforward.filter (fun yl => decide (date.year - yl.1 < 5)) = []
  · have hs : settle_annual_tax p date =
        settleFinish p date
          (p.loss_carryforward.filter (fun yl => decide (date.year - yl.1 < 5)))
          p.annual_realized_pnl [] := by
      simp [settle_annual_tax, henabled, hnotneg, hemp]
    refine ⟨?_, ?_, ?_⟩
    · rw [hs, settleFinish_loss_carryforward, hemp]
      rfl
    · rw [hs, settleFinish_cash, hemp]
      rfl
    · rw [hs, settleFinish_pnl]
  · have hs : settle_annual_tax p date =
        settleFinish p date
          (applyLossDeductions p.annual_realized_pnl
            (p.loss_carryforward.filter (fun yl => decide (date.year - yl.1 < 5)))).2.1
          (applyLossDeductions p.annual_realized_pnl
            (p.loss_carryforward.filter (fun yl => decide (date.year - yl.1 < 5)))).1
          (applyLossDeductions p.annual_realized_pnl
            (p.loss_carryforward.filter (fun yl => decide (date.year - yl.1 < 5)))).2.2 := by
      simp [settle_annual_tax, henabled, hnotneg, hemp, hpos]
    obtain ⟨e1, e2⟩ := applyLossDeductions_eq_c4walkAmended
      (p.loss_carryforward.filter (fun yl => decide (date.year - yl.1 < 5)))
      p.annual_realized_pnl
    refine ⟨?_, ?_, ?_⟩
    · rw [hs, settleFinish_loss_carryforward, e2]
    · rw [hs, settleFinish_cash, e1]
    · rw [hs, settleFinish_pnl]

theorem C4_amended_witness :
    pC4.capital_gains_tax_enabled = true ∧ 0 < pC4.annual_realized_pnl ∧
    pC4.loss_carryforward ≠ [] ∧
    ((settle_annual_tax pC4 dC4).loss_carryforward =
        (c4walkAmended pC4.annual_realized_pnl
          (pC4.loss_carryforward.filter (fun yl => decide (dC4.year - yl.1 < 5)))).2 ∧
      (settle_annual_tax pC4 dC4).cash = pC4.cash -
        (if 0 < (c4walkAmended pC4.annual_realized_pnl
              (pC4.loss_carryforward.filter (fun yl => decide (dC4.year - yl.1 < 5)))).1 then
            (c4walkAmended pC4.annual_realized_pnl
              (pC4.loss_carryforward.filter (fun yl => decide (dC4.year - yl.1 < 5)))).1 *
              (pC4.capital_gains_tax_pct / 100)
          else 0) ∧
      (settle_annual_tax pC4 dC4).annual_realized_pnl = 0) :=
  ⟨rfl, by norm_num [pC4, mkPortfolio], by simp [pC4, mkPortfolio],
   C4_amended_settlement pC4 dC4 rfl (by norm_num [pC4, mkPortfolio])
     (by simp [pC4, mkPortfolio])⟩

theorem flagsOf_buy (p : Portfolio) (t : String) (a pr s : ℚ) (v : Option ℚ) :
    flagsOf (buy_ticker p t a pr s v).1 = flagsOf p := by
  simp only [buy_ticker]
  split_ifs <;> rfl

theorem flagsOf_sell (p : Portfolio) (t : String) (pr : ℚ) :
    flagsOf (sell_ticker p t pr).1 = flagsOf p := by
  unfold sell_ticker
  cases dictLookup p.holdings t <;> rfl

theorem flagsOf_settleFinish (p : Portfolio) (d : Date) (L : List (ℤ × ℚ))
    (tp : ℚ) (ds : List Deduction) : flagsOf (settleFinish p d L tp ds) = flagsOf p := by
  simp only [settleFinish]
  split_ifs <;> rfl

theorem flagsOf_settle (p : Portfolio) (d : Date) :
    flagsOf (settle_annual_tax p d) = flagsOf p := by
  simp only [settle_annual_tax]
  split_ifs <;> simp [flagsOf_settleFinish]

theorem flagsOf_interest (p : Portfolio) :
    flagsOf (apply_daily_interest p) = flagsOf p := by
  simp only [apply_daily_interest]
  split_ifs <;> rfl

theorem flagsOf_sellLoop (ts : List String) (prices : Prices) (l : List String)
    (p : Portfolio) : flagsOf (sellLoop ts prices p l).1 = flagsOf p := by
  induction l generalizing p with
  | nil => rfl
  | cons t rest ih =>
    simp only [sellLoop]
    split_ifs
    · exact ih p
    · split
      · split
        · exact (ih _).trans (flagsOf_sell _ _ _)
        · exact (ih _).trans (flagsOf_sell _ _ _)
      · exact ih p

theorem flagsOf_buyLoop (prices : Prices) (allocs scores vm : List (String × ℚ))
    (l : List String) (p : Portfolio) :
    flagsOf (buyLoop prices allocs scores vm p l).1 = flagsOf p := by
  induction l generalizing p with
  | nil => rfl
  | cons t rest ih =>
    simp only [buyLoop]
    split
    · split
      · exact (ih _).trans (flagsOf_buy _ _ _ _ _ _)
      · exact (ih _).trans (flagsOf_buy _ _ _ _ _ _)
    · exact ih p

theorem flagsOf_rebalance (p : Portfolio) (targets : List (String × ℚ))
    (prices : Prices) (d : Date) (vm : List (String × ℚ)) :
    flagsOf (rebalance p targets prices d vm) = flagsOf p := by
  simp only [rebalance]
  have h2 := flagsOf_sellLoop (targets.map Prod.fst) prices (dictKeys p.holdings) p
  split_ifs
  all_goals
    first
      | exact h2
      | exact (flagsOf_buyLoop _ _ _ _ _ _).trans h2

theorem calcFee_zero (p : Portfolio) (base : ℚ)
    (hf : p.transaction_fee_enabled = false) : calcFee p base = 0 := by
  simp [calcFee, hf]

theorem mem_dictInsert (l : List (String × α)) (k : String) (v : α) :
    ∀ x ∈ dictInsert l k v, x = (k, v) ∨ x ∈ l := by
  induction l with
  | nil => simp [dictInsert]
  | cons hd tl ih =>
    obtain ⟨a, w⟩ := hd
    intro x hx
    by_cases hak : a = k
    · simp only [dictInsert, if_pos hak] at hx
      rcases List.mem_cons.mp hx with h | h
      · exact Or.inl h
      · exact Or.inr (List.mem_cons_of_mem _ h)
    · simp only [dictInsert, if_neg hak] at hx
      rcases List.mem_cons.mp hx with h | h
      · exact Or.inr (by simp [h])
      · rcases ih x h with h2 | h2
        · exact Or.inl h2
        · exact Or.inr (List.mem_cons_of_mem _ h2)

theorem buy_cash_ge (p : Portfolio) (t : String) (a pr s : ℚ) (v : Option ℚ)
    (hm : p.margin_enabled = false) (hf : p.transaction_fee_enabled = false) :
    p.cash - max a 0 ≤ (buy_ticker p t a pr s v).1.cash := by
  simp only [buy_ticker]
  split_ifs with h1 h2
  · exact sub_le_self _ (le_max_right a 0)
  · exact sub_le_self _ (le_max_right a 0)
  · have hpr : 0 < pr := not_le.mp h1
    have hqty : 0 < buyQuantity p.margin_enabled a pr := not_le.mp h2
    rw [buyQuantity, hm, if_neg Bool.false_ne_true] at hqty
    have hfloor : (1 : ℤ) ≤ ⌊a / pr⌋ := hqty
    have hdiv : (1 : ℚ) ≤ a / pr := by
      exact_mod_cast Int.le_floor.mp hfloor
    have hpa : pr ≤ a := by
      have h := (le_div_iff₀ hpr).mp hdiv
      linarith
    have hcost : (buyQuantity p.margin_enabled a pr : ℚ) * pr ≤ a := by
      rw [buyQuantity, hm, if_neg Bool.false_ne_true]
      calc (⌊a / pr⌋ : ℚ) * pr ≤ (a / pr) * pr :=
            mul_le_mul_of_nonneg_right (Int.floor_le _) hpr.le
        _ = a := div_mul_cancel₀ a hpr.ne'
    have hmax : max a 0 = a := max_eq_left (hpr.le.trans hpa)
    simp only [calcFee_zero p _ hf, add_zero]
    rw [hmax]
    exact sub_le_sub_left hcost _

theorem buy_holdpos (p : Portfolio) (t : String) (a pr s : ℚ) (v : Option ℚ)
    (hh : HoldPos p) : HoldPos (buy_ticker p t a pr s v).1 := by
  simp only [buy_ticker]
  split_ifs with h1 h2
  · exact hh
  · exact hh
  · intro tq hmem
    rcases mem_dictInsert _ _ _ tq hmem with h | h
    · rw [h]
      exact not_le.mp h2
    · exact hh tq h

theorem sell_cash_ge (p : Portfolio) (t : String) (price : ℚ)
    (hf : p.transaction_fee_enabled = false) (hpr : 0 ≤ price) (hh : HoldPos p) :
    p.cash ≤ (sell_ticker p t price).1.cash := by
  unfold sell_ticker
  cases hq : dictLookup p.holdings t with
  | none => exact le_refl _
  | some q =>
    have hq0 : (0 : ℤ) < q := hh (t, q) (dictLookup_mem _ _ _ hq)
    simp only [calcFee_zero p _ hf, sub_zero]
    have : (0 : ℚ) ≤ (q : ℚ) * price :=
      mul_nonneg (by exact_mod_cast hq0.le) hpr
    exact le_add_of_nonneg_right this

theorem sell_holdpos (p : Portfolio) (t : String) (price : ℚ)
    (hh : HoldPos p) : HoldPos (sell_ticker p t price).1 := by
  unfold sell_ticker
  cases hq : dictLookup p.holdings t with
  | none => exact hh
  | some q =>
    intro tq hmem
    exact hh tq ((dictErase_sublist _ _).subset hmem)

theorem settle_noop (p : Portfolio) (d : Date)
    (ht : p.capital_gains_tax_enabled = false) : settle_annual_tax p d = p := by
  simp [settle_annual_tax, ht]

theorem interest_noop (p : Portfolio) (hm : p.margin_enabled = false) :
    apply_daily_interest p = p := by
  simp [apply_daily_interest, hm]

theorem allocSum_nonneg (allocs : List (String × ℚ)) (l : List String) :
    0 ≤ allocSum allocs l := by
  induction l with
  | nil => exact le_refl 0
  | cons t rest ih => exact add_nonneg (le_max_right _ 0) ih

theorem sellLoop_good (ts : List String) (prices : Prices) (l : List String)
    (p : Portfolio) (hf : p.transaction_fee_enabled = false)
    (hp : ∀ tp ∈ prices, 0 ≤ tp.2.getD 0) (hc : 0 ≤ p.cash) (hh : HoldPos p) :
    0 ≤ (sellLoop ts prices p l).1.cash ∧ HoldPos (sellLoop ts prices p l).1 := by
  induction l generalizing p with
  | nil => exact ⟨hc, hh⟩
  | cons t rest ih =>
    simp only [sellLoop]
    split_ifs
    · exact ih p hf hc hh
    · split
      · rename_i price heq
        have hpr : 0 ≤ price := by
          have hmem := dictLookup_mem _ _ _ heq
          simpa using hp _ hmem
        have hf1 : (sell_ticker p t price).1.transaction_fee_enabled = false :=
          (congrArg (fun x => x.2.1) (flagsOf_sell p t price)).trans hf
        have hc1 : 0 ≤ (sell_ticker p t price).1.cash :=
          hc.trans (sell_cash_ge p t price hf hpr hh)
        have hh1 := sell_holdpos p t price hh
        split
        · exact ih _ hf1 hc1 hh1
        · exact ih _ hf1 hc1 hh1
      · exact ih p hf hc hh

theorem buyLoop_cash (prices : Prices) (allocs scores vm : List (String × ℚ))
    (l : List String) (p : Portfolio) (hm : p.margin_enabled = false)
    (hf : p.transaction_fee_enabled = false) (hh : HoldPos p) :
    p.cash - allocSum allocs l ≤ (buyLoop prices allocs scores vm p l).1.cash ∧
      HoldPos (buyLoop prices allocs scores vm p l).1 := by
  induction l generalizing p with
  | nil =>
    constructor
    · simp [allocSum, buyLoop]
    · exact hh
  | cons t rest ih =>
    have hstep : allocSum allocs (t :: rest) =
        max ((dictLookup allocs t).getD 0) 0 + allocSum allocs rest := rfl
    simp only [buyLoop]
    split
    · rename_i price heq
      have hflags := flagsOf_buy p t ((dictLookup allocs t).getD 0) price
        ((dictLookup scores t).getD 0) (if vm = [] then none else dictLookup vm t)
      have hm1 : (buy_ticker p t ((dictLookup allocs t).getD 0) price
          ((dictLookup scores t).getD 0) (if vm = [] then none else dictLookup vm t)).1.margin_enabled
          = false := (congrArg (fun x => x.1) hflags).trans hm
      have hf1 : (buy_ticker p t ((dictLookup allocs t).getD 0) price
          ((dictLookup scores t).getD 0) (if vm = [] then none else dictLookup vm t)).1.transaction_fee_enabled
          = false := (congrArg (fun x => x.2.1) hflags).trans hf
      have hcash1 := buy_cash_ge p t ((dictLookup allocs t).getD 0) price
        ((dictLookup scores t).getD 0) (if vm = [] then none else dictLookup vm t) hm hf
      have hh1 := buy_holdpos p t ((dictLookup allocs t).getD 0) price
        ((dictLookup scores t).getD 0) (if vm = [] then none else dictLookup vm t) hh
      have hrec := ih _ hm1 hf1 hh1
      split
      · refine ⟨?_, hrec.2⟩
        rw [hstep]
        have := hrec.1
        linarith
      · refine ⟨?_, hrec.2⟩
        rw [hstep]
        have := hrec.1
        linarith
    · have hrec := ih p hm hf hh
      refine ⟨?_, hrec.2⟩
      rw [hstep]
      have := hrec.1
      have hmax : 0 ≤ max ((dictLookup allocs t).getD 0) 0 := le_max_right _ 0
      linarith

theorem dictLookup_map_self (l : List String) (f : String → ℚ) (t : String)
    (h : t ∈ l) : dictLookup (l.map (fun s => (s, f s))) t = some (f t) := by
  induction l with
  | nil => simp at h
  | cons a rest ih =>
    by_cases hat : a = t
    · subst hat
      simp [dictLookup]
    · rcases List.mem_cons.mp h with h2 | h2
      · exact absurd h2.symm hat
      · simp [dictLookup, hat, ih h2]

theorem allocSum_eq (l : List String) (allocs : List (String × ℚ)) (f : String → ℚ)
    (hl : ∀ t ∈ l, dictLookup allocs t = some (f t)) :
    allocSum allocs l = (l.map (fun t => max (f t) 0)).sum := by
  induction l with
  | nil => rfl
  | cons t rest ih =>
    have h1 := hl t (by simp)
    have h2 : ∀ s ∈ rest, dictLookup allocs s = some (f s) :=
      fun s hs => hl s (List.mem_cons_of_mem _ hs)
    simp [allocSum, h1, ih h2]

theorem allocSum_map_le (toBuy : List String) (f : String → ℚ) (c : ℚ)
    (hf0 : ∀ t ∈ toBuy, 0 ≤ f t) (hsum : (toBuy.map f).sum ≤ c) :
    allocSum (toBuy.map (fun s => (s, f s))) toBuy ≤ c := by
  rw [allocSum_eq toBuy _ f (fun t ht => dictLookup_map_self toBuy f t ht)]
  have heq : (toBuy.map (fun t => max (f t) 0)).sum = (toBuy.map f).sum := by
    congr 1
    apply List.map_congr_left
    intro t ht
    exact max_eq_left (hf0 t ht)
  rw [heq]
  exact hsum

theorem sum_map_const_q (l : List String) (c : ℚ) :
    (l.map (fun _ => c)).sum = l.length * c := by
  induction l with
  | nil => simp
  | cons t rest ih =>
    simp [ih]
    ring

theorem sum_map_mul_left_q (l : List String) (f : String → ℚ) (c : ℚ) :
    (l.map (fun x => c * f x)).sum = c * (l.map f).sum := by
  induction l with
  | nil => simp
  | cons t rest ih =>
    simp [ih]
    ring

theorem sum_map_div_q (l : List String) (f : String → ℚ) (T : ℚ) :
    (l.map (fun x => f x / T)).sum = (l.map f).sum / T := by
  induction l with
  | nil => simp
  | cons t rest ih =>
    simp [ih]
    ring

theorem invVar_pos (vm : List (String × ℚ)) (t : String) : 0 < invVar vm t := by
  unfold invVar
  split
  · split_ifs with h
    · rename_i v _
      have : (0 : ℚ) < |v| := lt_trans (by norm_num) h
      exact one_div_pos.mpr this
    · norm_num
  · norm_num

theorem rebalance_good (p : Portfolio) (targets : List (String × ℚ)) (prices : Prices)
    (d : Date) (vm : List (String × ℚ)) (hm : p.margin_enabled = false)
    (hf : p.transaction_fee_enabled = false)
    (hp : ∀ tp ∈ prices, 0 ≤ tp.2.getD 0) (hc : 0 ≤ p.cash) (hh : HoldPos p) :
    0 ≤ (rebalance p targets prices d vm).cash ∧
      HoldPos (rebalance p targets prices d vm) := by
  obtain ⟨hc1, hh1⟩ :=
    sellLoop_good (targets.map Prod.fst) prices (dictKeys p.holdings) p hf hp hc hh
  have hflags := flagsOf_sellLoop (targets.map Prod.fst) prices (dictKeys p.holdings) p
  have hm1 : (sellLoop (targets.map Prod.fst) prices p (dictKeys p.holdings)).1.margin_enabled
      = false := (congrArg (fun x => x.1) hflags).trans hm
  have hf1 : (sellLoop (targets.map Prod.fst) prices p
      (dictKeys p.holdings)).1.transaction_fee_enabled
      = false := (congrArg (fun x => x.2.1) hflags).trans hf
  simp only [rebalance]
  set sl := sellLoop (targets.map Prod.fst) prices p (dictKeys p.holdings) with hsl
  set toBuy := List.filter (fun t => (dictLookup sl.1.holdings t).isNone)
    (List.map Prod.fst targets) with htb
  set scoresMap := List.foldl (fun acc ts => dictInsert acc ts.1 ts.2)
    ([] : List (String × ℚ)) targets with hsm
  have hlen : toBuy ≠ [] → ((toBuy.length : ℚ) ≠ 0) := by
    intro hne
    exact_mod_cast fun h => hne (List.length_eq_zero.mp (by exact_mod_cast h))
  split_ifs with hempty hvar hpos
  · exact ⟨hc1, hh1⟩
  · have hT := hpos
    have hbound : allocSum (toBuy.map (fun t =>
        (t, sl.1.cash * (invVar vm t / (toBuy.map (invVar vm)).sum)))) toBuy ≤ sl.1.cash := by
      apply allocSum_map_le
      · intro t _
        exact mul_nonneg hc1 (div_nonneg (invVar_pos vm t).le hT.le)
      · have e1 := sum_map_mul_left_q toBuy
          (fun t => invVar vm t / (toBuy.map (invVar vm)).sum) sl.1.cash
        have e2 := sum_map_div_q toBuy (invVar vm) (toBuy.map (invVar vm)).sum
        rw [e1, e2, div_self hT.ne']
        simp
    obtain ⟨hbc, hbh⟩ := buyLoop_cash prices _ scoresMap vm toBuy sl.1 hm1 hf1 hh1
    constructor
    · have := allocSum_nonneg (toBuy.map (fun t =>
        (t, sl.1.cash * (invVar vm t / (toBuy.map (invVar vm)).sum)))) toBuy
      linarith
    · exact hbh
  · have hbound : allocSum (toBuy.map (fun t => (t, sl.1.cash / toBuy.length))) toBuy
        ≤ sl.1.cash := by
      apply allocSum_map_le
      · intro t _
        exact div_nonneg hc1 (by positivity)
      · rw [sum_map_const_q]
        rw [mul_comm, div_mul_cancel₀ _ (hlen hempty)]
    obtain ⟨hbc, hbh⟩ := buyLoop_cash prices _ scoresMap vm toBuy sl.1 hm1 hf1 hh1
    constructor
    · linarith
    · exact hbh
  · have hbound : allocSum (toBuy.map (fun t => (t, sl.1.cash / toBuy.length))) toBuy
        ≤ sl.1.cash := by
      apply allocSum_map_le
      · intro t _
        exact div_nonneg hc1 (by positivity)
      · rw [sum_map_const_q]
        rw [mul_comm, div_mul_cancel₀ _ (hlen hempty)]
    obtain ⟨hbc, hbh⟩ := buyLoop_cash prices _ scoresMap vm toBuy sl.1 hm1 hf1 hh1
    constructor
    · linarith
    · exact hbh

theorem flagsOf_execOp (p : Portfolio) (op : AccountOp) :
    flagsOf (execOp p op) = flagsOf p := by
  cases op with
  | buyOp t a pr s => exact flagsOf_buy p t a pr s none
  | sellOp t pr => exact flagsOf_sell p t pr
  | rebalanceOp targets prices date vmm => exact flagsOf_rebalance p targets prices date vmm
  | settleOp date => exact flagsOf_settle p date
  | interestOp => exact flagsOf_interest p

theorem execOp_good (p : Portfolio) (op : AccountOp)
    (hm : p.margin_enabled = false) (hf : p.transaction_fee_enabled = false)
    (ht : p.capital_gains_tax_enabled = false)
    (hc : 0 ≤ p.cash) (hh : HoldPos p) (hok : opOK p op) :
    0 ≤ (execOp p op).cash ∧ HoldPos (execOp p op) := by
  cases op with
  | buyOp t a pr s =>
    obtain ⟨ha0, hac⟩ := hok
    constructor
    · show 0 ≤ (buy_ticker p t a pr s none).1.cash
      have := buy_cash_ge p t a pr s none hm hf
      have hmax : max a 0 = a := max_eq_left ha0
      rw [hmax] at this
      linarith
    · exact buy_holdpos p t a pr s none hh
  | sellOp t pr =>
    constructor
    · exact hc.trans (sell_cash_ge p t pr hf hok hh)
    · exact sell_holdpos p t pr hh
  | rebalanceOp targets prices date vmm =>
    exact rebalance_good p targets prices date vmm hm hf hok hc hh
  | settleOp date =>
    rw [show execOp p (AccountOp.settleOp date) = settle_annual_tax p date from rfl,
      settle_noop p date ht]
    exact ⟨hc, hh⟩
  | interestOp =>
    rw [show execOp p AccountOp.interestOp = apply_daily_interest p from rfl,
      interest_noop p hm]
    exact ⟨hc, hh⟩

theorem execOps_good (ops : List AccountOp) (p : Portfolio)
    (hm : p.margin_enabled = false) (hf : p.transaction_fee_enabled = false)
    (ht : p.capital_gains_tax_enabled = false)
    (hc : 0 ≤ p.cash) (hh : HoldPos p) (hok : opsOK p ops) :
    0 ≤ (execOps p ops).cash ∧ HoldPos (execOps p ops) := by
  induction ops generalizing p with
  | nil => exact ⟨hc, hh⟩
  | cons op rest ih =>
    obtain ⟨h1, h2⟩ := hok
    obtain ⟨hc1, hh1⟩ := execOp_good p op hm hf ht hc hh h1
    have hflags := flagsOf_execOp p op
    exact ih (execOp p op)
      ((congrArg (fun x => x.1) hflags).trans hm)
      ((congrArg (fun x => x.2.1) hflags).trans hf)
      ((congrArg (fun x => x.2.2) hflags).trans ht)
      hc1 hh1 h2

/-- Claim C1 (amended): with margin, transaction fees, and capital-gains
tax all disabled, starting from nonnegative cash and positive holdings,
cash stays nonnegative after any sequence of buy / sell / rebalance /
tax-settlement / interest operations whose side conditions hold (sale
prices from the table are nonnegative; directly issued buy allocations
are nonnegative and at most the current cash, as for all buys the run
loop issues). With fees enabled (or a tax debit), cash can go negative
even with margin disabled — see the counterexample. -/
theorem C1_amended_cash_nonneg (p : Portfolio) (ops : List AccountOp)
    (hm : p.margin_enabled = false) (hf : p.transaction_fee_enabled = false)
    (ht : p.capital_gains_tax_enabled = false)
    (hc : 0 ≤ p.cash) (hh : HoldPos p) (hok : opsOK p ops) :
    0 ≤ (execOps p ops).cash :=
  (execOps_good ops p hm hf ht hc hh hok).1

theorem C1_amended_witness :
    pFresh.margin_enabled = false ∧ pFresh.transaction_fee_enabled = false ∧
    pFresh.capital_gains_tax_enabled = false ∧ (0 : ℚ) ≤ pFresh.cash ∧
    opsOK pFresh opsW ∧ 0 ≤ (execOps pFresh opsW).cash :=
  ⟨rfl, rfl, rfl, by norm_num [pFresh, mkPortfolio],
   by norm_num [opsOK, opOK, opsW, pFresh, mkPortfolio],
   C1_amended_cash_nonneg pFresh opsW rfl rfl rfl
     (by norm_num [pFresh, mkPortfolio])
     (by intro tq hmem; simp [pFresh, mkPortfolio] at hmem)
     (by norm_num [opsOK, opOK, opsW, pFresh, mkPortfolio])⟩
